import Mathlib

/-!
Shallow embedding of the Flutter service worker `docs/flutter_service_worker.js`.

The worker manages three cache namespaces:
* the staging namespace (`TEMP`, "flutter-temp-cache"), populated at install
  time with the Core List of application-shell files;
* the content namespace (`CACHE_NAME`, "flutter-app-cache"), the cache served
  to intercepted fetch requests;
* the manifest-record namespace (`MANIFEST`, "flutter-app-manifest"), holding
  the previously persisted resource manifest under the key `manifest`.

Stored requests are represented by the request URL with the fragment removed
and the leading `origin ++ "/"` stripped (the Cache API keys entries by the
request URL, ignoring the fragment).  A manifest is an association list from
resource path to content fingerprint; the literal `RESOURCES` / `CORE`
configuration data is treated as externally injected configuration (spec
sections 1 and 9), so every operation below is parameterized over it.

JavaScript string operations are modelled on character lists so that all
definitions reduce inside the kernel.
-/

namespace FlutterSW

/-- The distinguished root key, `'/'` in the source. -/
def rootKey : String := "/"

/-- The empty path. -/
def emptyStr : String := ""

/-- The cache-busting query token `'?v='` stripped by the fetch handler. -/
def vTok : String := "?v="

/-- The URL fragment delimiter. -/
def hashTok : String := "#"

/-- The same-origin navigation prefix `'/#'` recognised by the fetch handler. -/
def slashHash : String := "/#"

/-- The one intercepted request method, `'GET'` in the source. -/
def getMethod : String := "GET"

/-- A stored or fetched response.  Only the body and the `ok` status flag are
observable to the worker's logic. -/
structure Response where
  body : String
  ok : Bool
deriving DecidableEq, Repr

/-- A manifest: association list from resource path to content fingerprint
(`RESOURCES` in the source). -/
abbrev Manifest := List (String × String)

/-- A cache namespace: association list from stored request key to response. -/
abbrev Cache := List (String × Response)

/-- `RESOURCES[key]` as an option: the fingerprint of `key`, if present. -/
def lookup : Manifest → String → Option String
  | [], _ => none
  | p :: m, k => if p.1 == k then some p.2 else lookup m k

/-- JavaScript truthiness of `RESOURCES[key]`: present and nonempty.
An absent key yields `undefined` (falsy); the empty string is also falsy,
matching spec section 7's "malformed manifest entries are silently treated as
cache-misses". -/
def truthy (o : Option String) : Bool :=
  match o with
  | none => false
  | some s => s != emptyStr

/-- `cache.match(request)`: first stored response for the key. -/
def cMatch : Cache → String → Option Response
  | [], _ => none
  | p :: c, k => if p.1 == k then some p.2 else cMatch c k

/-- `cache.delete(request)`: remove every entry stored for the key. -/
def cDelete : Cache → String → Cache
  | [], _ => []
  | p :: c, k => if p.1 == k then cDelete c k else p :: cDelete c k

/-- `cache.put(request, response)`: replace any entry for the key. -/
def cPut (c : Cache) (k : String) (v : Response) : Cache :=
  cDelete c k ++ [(k, v)]

/-- Whether the cache holds an entry for the key. -/
def hasKey : Cache → String → Bool
  | [], _ => false
  | p :: c, k => p.1 == k || hasKey c k

/-- `cache.keys()`: the stored request keys, in storage order. -/
def keys (c : Cache) : List String := c.map (fun p => p.1)

/-- Boolean membership of a string in a list of strings. -/
def memb (r : String) : List String → Bool
  | [] => false
  | k :: ks => k == r || memb r ks

/-- Key normalization used by the activate handler and the offline hydrator
(lines 102-105, 192-195): the empty path denotes the root key. -/
def normKey (k : String) : String :=
  if k == emptyStr then rootKey else k

/-- Eviction test of the activate handler (line 109):
`!RESOURCES[key] || RESOURCES[key] != oldManifest[key]`. -/
def shouldEvict (res old : Manifest) (k : String) : Bool :=
  !truthy (lookup res k) || lookup res k != lookup old k

/-- The eviction loop of the activate handler (lines 101-112), iterating over
a snapshot of the content keys and deleting each stale entry. -/
def evictLoop (res old : Manifest) : List String → Cache → Cache
  | [], c => c
  | r :: ks, c =>
      evictLoop res old ks (if shouldEvict res old (normKey r) then cDelete c r else c)

/-- The whole eviction pass: loop over `contentCache.keys()`. -/
def evictPass (res old : Manifest) (c : Cache) : Cache :=
  evictLoop res old (keys c) c

/-- The staging-to-content copy loop (lines 88-91 and 115-118): for each key
of the staging snapshot, `put` the staged response into the target. -/
def copyLoop (t : Cache) : List String → Cache → Cache
  | [], c => c
  | r :: ks, c =>
      copyLoop t ks
        (match cMatch t r with
         | some v => cPut c r v
         | none => c)

/-- Copy every entry of `t` into `c`, staged entries overwriting. -/
def copyAll (t c : Cache) : Cache :=
  copyLoop t (keys t) c

/-- The persistent state owned by the worker: the three cache namespaces.
`none` means the namespace does not currently exist (`caches.delete`d);
`caches.open` materialises it as empty.  The manifest-record namespace is
modelled by its single `manifest` entry. -/
structure SW where
  content : Option Cache
  temp : Option Cache
  manifestStore : Option (Option Manifest)
deriving DecidableEq, Repr

/-- The activate handler (lines 77-124), successful path.  Returns the new
state and whether `clients.claim()` was signalled. -/
def activate (res : Manifest) (s : SW) : SW × Bool :=
  let contentCache := s.content.getD []
  let tempCache := s.temp.getD []
  match s.manifestStore.getD none with
  | none =>
      -- Fresh install: delete the content namespace, reopen it empty,
      -- copy staging in, persist the manifest, claim.
      ({ content := some (copyAll tempCache [])
         temp := none
         manifestStore := some (some res) }, true)
  | some old =>
      -- Upgrade: evict stale entries, overlay staging, persist, claim.
      ({ content := some (copyAll tempCache (evictPass res old contentCache))
         temp := none
         manifestStore := some (some res) }, true)

/-! ## Install handler and the offline hydrator -/

/-- URL resolution of a manifest path fetched by `cache.addAll`, expressed as
a stored cache key: the root path resolves to `origin ++ "/"`, whose stored
key is the empty string; any other path resolves to `origin ++ "/" ++ path`,
whose stored key is the path itself. -/
def addAllKey (k : String) : String :=
  if k == rootKey then emptyStr else k

/-- `cache.addAll(paths)`: fetch every path and store the responses; the
operation rejects (returning `none`) if any fetch fails or yields a
non-`ok` response, in which case nothing is committed. -/
def addAll (net : String → Option Response) (c : Cache) : List String → Option Cache
  | [] => some c
  | k :: ks =>
      match net k with
      | some r => if r.ok then addAll net (cPut c (addAllKey k) r) ks else none
      | none => none

/-- The install handler (lines 65-73): populate the staging namespace with the
Core List via `cache.addAll` (cache-bypassing fetches).  `none` signals an
install failure. -/
def install (core : List String) (net : String → Option Response) (s : SW) : Option SW :=
  match addAll net (s.temp.getD []) core with
  | some t => some { s with temp := some t }
  | none => none

/-- The set (in manifest order) of manifest keys not currently present in the
content namespace under normalization, as computed by `downloadOffline`
(lines 188-202). -/
def missingKeys (res : Manifest) (c : Cache) : List String :=
  (res.map (fun p => p.1)).filter (fun k => !memb k ((keys c).map normKey))

/-- The offline hydrator `downloadOffline` (lines 187-204): bulk
fetch-and-store of exactly the missing manifest keys into the content
namespace. -/
def downloadOffline (res : Manifest) (net : String → Option Response) (c : Cache) :
    Option Cache :=
  addAll net c (missingKeys res c)

/-! ## Fetch handler

JavaScript string primitives used by the fetch handler, modelled on character
lists so that the kernel can evaluate them. -/

/-- `s.substring(n)` on an ASCII URL: drop the first `n` characters. -/
def strDrop (s : String) (n : Nat) : String :=
  String.mk (s.toList.drop n)

/-- `s.length` on an ASCII URL. -/
def strLen (s : String) : Nat :=
  s.toList.length

/-- `s.startsWith(pre)`. -/
def startsWith (s pre : String) : Bool :=
  pre.toList.isPrefixOf s.toList

/-- The prefix of `s` strictly before the first occurrence of `sep`, or
`none` when `sep` does not occur: `s.indexOf(sep) != -1` together with
`s.split(sep)[0]`. -/
def cutBefore (sep : List Char) : List Char → Option (List Char)
  | [] => if sep.isEmpty then some [] else none
  | c :: rest =>
      if sep.isPrefixOf (c :: rest) then some []
      else
        match cutBefore sep rest with
        | some p => some (c :: p)
        | none => none

/-- Path normalization of the fetch handler (lines 140-148): strip the origin,
strip a trailing `?v=` cache-busting token, and collapse the bare origin,
same-origin `#`-navigations, and the empty path to the root key. -/
def normalizeKey (origin url : String) : String :=
  let key := strDrop url (strLen origin + 1)
  let key :=
    match cutBefore vTok.toList key.toList with
    | some p => String.mk p
    | none => key
  if url == origin || startsWith url (origin ++ slashHash) || key == emptyStr then rootKey
  else key

/-- The stored cache key of a request URL: the Cache API ignores the URL
fragment, and we strip the leading `origin ++ "/"` as everywhere else. -/
def cacheKey (origin url : String) : String :=
  let bare :=
    match cutBefore hashTok.toList url.toList with
    | some p => String.mk p
    | none => url
  strDrop bare (strLen origin + 1)

/-- Result of the fetch handler on one event.  `pass` means the handler
returned without `respondWith`, leaving the request to the host's network
path and every namespace untouched; `served` carries the response given to
the caller, the content namespace afterwards, and whether a network fetch was
performed; `netFail` means the `respondWith` chain rejected with the network
error. -/
inductive FetchOutcome where
  | pass
  | served (resp : Response) (content : Cache) (usedNet : Bool)
  | netFail (content : Cache)
deriving DecidableEq, Repr

/-- The content namespace after the event, given its state before. -/
def FetchOutcome.contentAfter : FetchOutcome → Cache → Cache
  | .pass, c => c
  | .served _ c' _, _ => c'
  | .netFail c', _ => c'

/-- `onlineFirst` (lines 207-225): fetch from the network, storing and
returning the response on success with no status check; on network failure
fall back to the cache entry for the request, else re-throw the error. -/
def onlineFirst (net : String → Option Response) (c : Cache) (url ck : String) :
    FetchOutcome :=
  match net url with
  | some resp => .served resp (cPut c ck resp) true
  | none =>
      match cMatch c ck with
      | some r => .served r c true
      | none => .netFail c

/-- The fetch handler (lines 136-171): intercept only `GET` requests for
manifest-known keys; serve the root key online-first and every other key
cache-first with opportunistic refill. -/
def handleFetch (origin : String) (res : Manifest) (net : String → Option Response)
    (c : Cache) (method url : String) : FetchOutcome :=
  if method != getMethod then .pass
  else
    let key := normalizeKey origin url
    if !truthy (lookup res key) then .pass
    else if key == rootKey then onlineFirst net c url (cacheKey origin url)
    else
      match cMatch c (cacheKey origin url) with
      | some r => .served r c false
      | none =>
          match net url with
          | some resp =>
              .served resp (if resp.ok then cPut c (cacheKey origin url) resp else c) true
          | none => .netFail c

/-! ## Fault-injected activation

The activate handler runs inside a `try`/`catch`; every `await` is a point at
which the underlying cache or network primitive may fail.  `activateTry`
re-runs the handler with a step counter over the awaited primitives, raising
the injected fault at step `failAt`; `runActivate` wraps it with the `catch`
block of lines 125-131. -/

/-- Outcome of the `try` block: success with the new state and the claim
signal, or failure carrying the state at the failure point. -/
inductive TryResult where
  | ok (s : SW) (claimed : Bool)
  | failed (s : SW)
deriving DecidableEq, Repr

/-- Does the awaited primitive at step `n` fail? -/
def fails (failAt : Option Nat) (n : Nat) : Bool :=
  failAt == some n

/-- Eviction loop with fault injection: each performed `cache.delete` is one
awaited step.  On failure the content namespace at that point is returned. -/
def evictLoopF (failAt : Option Nat) (res old : Manifest) :
    List String → Cache → Nat → Except Cache (Cache × Nat)
  | [], c, n => .ok (c, n)
  | r :: ks, c, n =>
      if shouldEvict res old (normKey r) then
        if fails failAt n then .error c
        else evictLoopF failAt res old ks (cDelete c r) (n + 1)
      else evictLoopF failAt res old ks c n

/-- Copy loop with fault injection: each iteration awaits `tempCache.match`
and then `contentCache.put`.  A `put` of a missing response rejects. -/
def copyLoopF (failAt : Option Nat) (t : Cache) :
    List String → Cache → Nat → Except Cache (Cache × Nat)
  | [], c, n => .ok (c, n)
  | r :: ks, c, n =>
      if fails failAt n then .error c
      else
        match cMatch t r with
        | some v =>
            if fails failAt (n + 1) then .error c
            else copyLoopF failAt t ks (cPut c r v) (n + 2)
        | none => .error c

/-- The `try` block of the activate handler (lines 79-124) with a fault
injected at awaited step `failAt`. -/
def activateTry (failAt : Option Nat) (res : Manifest) (s : SW) : TryResult :=
  -- await caches.open(CACHE_NAME)
  if fails failAt 0 then .failed s else
  let contentCache := s.content.getD []
  let s0 : SW := { s with content := some contentCache }
  -- await caches.open(TEMP)
  if fails failAt 1 then .failed s0 else
  let tempCache := s0.temp.getD []
  let s1 : SW := { s0 with temp := some tempCache }
  -- await caches.open(MANIFEST)
  if fails failAt 2 then .failed s1 else
  let s2 : SW := { s1 with manifestStore := some (s1.manifestStore.getD none) }
  -- await manifestCache.match('manifest')
  if fails failAt 3 then .failed s2 else
  match s2.manifestStore.getD none with
  | none =>
      -- await caches.delete(CACHE_NAME)
      if fails failAt 4 then .failed s2 else
      let s3 : SW := { s2 with content := none }
      -- await caches.open(CACHE_NAME)
      if fails failAt 5 then .failed s3 else
      let s4 : SW := { s3 with content := some ([] : Cache) }
      -- await tempCache.keys()
      if fails failAt 6 then .failed s4 else
      match copyLoopF failAt tempCache (keys tempCache) [] 7 with
      | .error cErr => .failed { s4 with content := some cErr }
      | .ok (c, n) =>
          let s5 : SW := { s4 with content := some c }
          -- await caches.delete(TEMP)
          if fails failAt n then .failed s5 else
          let s6 : SW := { s5 with temp := none }
          -- await manifestCache.put('manifest', ...)
          if fails failAt (n + 1) then .failed s6 else
          .ok { s6 with manifestStore := some (some res) } true
  | some old =>
      -- await manifest.json()
      if fails failAt 4 then .failed s2 else
      -- await contentCache.keys()
      if fails failAt 5 then .failed s2 else
      match evictLoopF failAt res old (keys contentCache) contentCache 6 with
      | .error cErr => .failed { s2 with content := some cErr }
      | .ok (c1, n1) =>
          let sE : SW := { s2 with content := some c1 }
          -- await tempCache.keys()
          if fails failAt n1 then .failed sE else
          match copyLoopF failAt tempCache (keys tempCache) c1 (n1 + 1) with
          | .error cErr => .failed { s2 with content := some cErr }
          | .ok (c2, n2) =>
              let sA : SW := { s2 with content := some c2 }
              -- await caches.delete(TEMP)
              if fails failAt n2 then .failed sA else
              let sB : SW := { sA with temp := none }
              -- await manifestCache.put('manifest', ...)
              if fails failAt (n2 + 1) then .failed sB else
              .ok { sB with manifestStore := some (some res) } true

/-- The `catch` block (lines 125-131): on any unhandled error, delete all
three namespaces unconditionally. -/
def catchHandler (_s : SW) : SW :=
  -- await caches.delete(CACHE_NAME); caches.delete(TEMP); caches.delete(MANIFEST)
  { content := none, temp := none, manifestStore := none }

/-- The whole activate event with a fault injected at step `failAt`; the
`Bool` records whether `clients.claim()` was signalled. -/
def runActivate (failAt : Option Nat) (res : Manifest) (s : SW) : SW × Bool :=
  match activateTry failAt res s with
  | .ok s' claimed => (s', claimed)
  | .failed sErr => (catchHandler sErr, false)

/-! ## Activation operation trace

The sequence of awaited primitive operations performed by a successful
activation, used to state ordering properties. -/

/-- Primitive operations awaited by the activate handler. -/
inductive AOp where
  | openContent
  | openTemp
  | openManifest
  | readRecord
  | deleteContentNs
  | evict (r : String)
  | copy (r : String)
  | deleteTempNs
  | putRecord
deriving DecidableEq, Repr

/-- The operation trace of a successful activation, following the control
flow of lines 77-124. -/
def activateOps (res : Manifest) (s : SW) : List AOp :=
  let contentCache := s.content.getD []
  let tempCache := s.temp.getD []
  match s.manifestStore.getD none with
  | none =>
      [AOp.openContent, AOp.openTemp, AOp.openManifest, AOp.readRecord,
        AOp.deleteContentNs]
        ++ (keys tempCache).map AOp.copy
        ++ [AOp.deleteTempNs, AOp.putRecord]
  | some old =>
      [AOp.openContent, AOp.openTemp, AOp.openManifest, AOp.readRecord]
        ++ ((keys contentCache).filter
              (fun r => shouldEvict res old (normKey r))).map AOp.evict
        ++ (keys tempCache).map AOp.copy
        ++ [AOp.deleteTempNs, AOp.putRecord]

/-! ## Concrete configuration instances

Used by the witness theorems to instantiate the parameterized properties. -/

def origin0 : String := "http://o"
def urlX : String := "http://o/x.js"
def urlRootSlash : String := "http://o/"
def urlRootV : String := "http://o/?v=1"
def urlHash : String := "http://o/#home"
def keyX : String := "x.js"
def kIndex : String := "index.html"
def fpA : String := "h1"
def fpB : String := "h2"
def bodyA : String := "payload"
def bodyB : String := "older"

def respOk : Response := { body := bodyA, ok := true }
def respBad : Response := { body := bodyA, ok := false }
def respOld : Response := { body := bodyB, ok := true }

def netOk : String → Option Response := fun _ => some respOk
def netBad : String → Option Response := fun _ => some respBad
def netDown : String → Option Response := fun _ => none

def resX : Manifest := [(keyX, fpA)]
def resIdx : Manifest := [(kIndex, fpA)]
def resRoot : Manifest := [(rootKey, fpA), (keyX, fpA)]
def resRootB : Manifest := [(rootKey, fpB), (keyX, fpA)]

def sEmpty : SW := { content := none, temp := none, manifestStore := none }
def sOldIdx : SW :=
  { content := none, temp := none, manifestStore := some (some resIdx) }
def urlUnknown : String := "http://o/none.js"
def core0 : List String := [kIndex]
def sInstIdx : SW :=
  { content := none, temp := some [(kIndex, respOk)], manifestStore := none }
def cHyd : Cache := [(kIndex, respOld)]
def cHyd' : Cache := [(kIndex, respOld), (keyX, respOk)]
def cFull : Cache := [(keyX, respOk)]

/-! ## Basic cache lemmas -/

theorem cMatch_append (a b : Cache) (r : String) :
    cMatch (a ++ b) r =
      match cMatch a r with
      | some v => some v
      | none => cMatch b r := by
  induction a with
  | nil => simp [cMatch]
  | cons p a ih =>
      by_cases h : p.1 = r <;> simp [cMatch, h, ih]

theorem cMatch_cDelete (c : Cache) (k r : String) :
    cMatch (cDelete c k) r = if r = k then none else cMatch c r := by
  induction c with
  | nil => simp [cDelete, cMatch]
  | cons p c ih =>
      by_cases hp : p.1 = k <;> by_cases hpr : p.1 = r <;>
        simp_all [cDelete, cMatch]

theorem cMatch_cPut (c : Cache) (k : String) (v : Response) (r : String) :
    cMatch (cPut c k v) r = if r = k then some v else cMatch c r := by
  unfold cPut
  rw [cMatch_append, cMatch_cDelete]
  by_cases h : r = k
  · simp [h, cMatch]
  · cases hc : cMatch c r <;> simp [cMatch, h, hc, Ne.symm h]

theorem hasKey_eq_isSome (c : Cache) (r : String) :
    hasKey c r = (cMatch c r).isSome := by
  induction c with
  | nil => rfl
  | cons p c ih => by_cases h : p.1 = r <;> simp [hasKey, cMatch, h, ih]

theorem memb_keys_eq_hasKey (c : Cache) (r : String) :
    memb r (keys c) = hasKey c r := by
  induction c with
  | nil => rfl
  | cons p c ih =>
      rw [show memb r (keys (p :: c)) = (p.1 == r || memb r (keys c)) from rfl, ih]
      rfl

theorem hasKey_cPut (c : Cache) (k : String) (v : Response) (r : String) :
    hasKey (cPut c k v) r = ((r == k) || hasKey c r) := by
  rw [hasKey_eq_isSome, cMatch_cPut, hasKey_eq_isSome]
  by_cases h : r = k <;> simp [h]

/-! ## Eviction and copy loop characterizations -/

theorem evictLoop_cMatch (res old : Manifest) (ks : List String) (c : Cache) (r : String) :
    cMatch (evictLoop res old ks c) r =
      if shouldEvict res old (normKey r) && memb r ks then none else cMatch c r := by
  induction ks generalizing c with
  | nil => simp [evictLoop, memb]
  | cons k ks ih =>
      simp only [evictLoop, memb]
      rw [ih]
      by_cases hk : k = r
      · subst hk
        by_cases hse : shouldEvict res old (normKey k) = true
        · by_cases hm : memb k ks = true <;>
            simp [hse, hm, cMatch_cDelete]
        · simp [hse]
      · have hkr : (k == r) = false := by simp [hk]
        have hc1 : cMatch (if shouldEvict res old (normKey k) then cDelete c k else c) r
            = cMatch c r := by
          split
          · rw [cMatch_cDelete, if_neg (fun he => hk he.symm)]
          · rfl
        rw [hc1]
        simp [hkr]

theorem evictPass_cMatch (res old : Manifest) (c : Cache) (r : String) :
    cMatch (evictPass res old c) r =
      if shouldEvict res old (normKey r) then none else cMatch c r := by
  unfold evictPass
  rw [evictLoop_cMatch, memb_keys_eq_hasKey, hasKey_eq_isSome]
  by_cases hse : shouldEvict res old (normKey r) = true
  · cases hc : cMatch c r <;> simp [hse, hc]
  · simp [hse]

theorem copyLoop_cMatch (t : Cache) (ks : List String) (c : Cache) (r : String) :
    cMatch (copyLoop t ks c) r =
      if memb r ks && (cMatch t r).isSome then cMatch t r else cMatch c r := by
  induction ks generalizing c with
  | nil => simp [copyLoop, memb]
  | cons k ks ih =>
      simp only [copyLoop, memb]
      rw [ih]
      by_cases hk : k = r
      · subst hk
        cases ht : cMatch t k with
        | some v =>
            by_cases hm : memb k ks = true <;> simp [ht, hm, cMatch_cPut]
        | none => simp [ht]
      · have hkr : (k == r) = false := by simp [hk]
        cases ht : cMatch t k with
        | some v =>
            have hput : cMatch (cPut c k v) r = cMatch c r := by
              rw [cMatch_cPut, if_neg (fun he => hk he.symm)]
            simp only [ht, hput, hkr]
            simp
        | none => simp [ht, hkr]

theorem copyAll_cMatch (t c : Cache) (r : String) :
    cMatch (copyAll t c) r =
      match cMatch t r with
      | some v => some v
      | none => cMatch c r := by
  unfold copyAll
  rw [copyLoop_cMatch, memb_keys_eq_hasKey, hasKey_eq_isSome]
  cases ht : cMatch t r <;> simp [ht]

theorem hasKey_copyAll (t c : Cache) (r : String) :
    hasKey (copyAll t c) r = (hasKey t r || hasKey c r) := by
  rw [hasKey_eq_isSome, copyAll_cMatch, hasKey_eq_isSome, hasKey_eq_isSome]
  cases ht : cMatch t r <;> simp [ht]

/-! ## shouldEvict bridges -/

theorem truthy_of_not_shouldEvict (res old : Manifest) (k : String)
    (h : shouldEvict res old k = false) : truthy (lookup res k) = true := by
  unfold shouldEvict at h
  rcases Bool.or_eq_false_iff.mp h with ⟨h1, _⟩
  simpa using h1

theorem shouldEvict_self (res : Manifest) (k : String)
    (h : truthy (lookup res k) = true) : shouldEvict res res k = false := by
  unfold shouldEvict
  simp [h]

theorem shouldEvict_iff (res old : Manifest) (k : String) :
    shouldEvict res old k = true ↔
      (truthy (lookup res k) = false ∨ lookup res k ≠ lookup old k) := by
  unfold shouldEvict
  cases htr : truthy (lookup res k) <;> simp [htr, bne_iff_ne]

/-- C1: during an activation that finds a persisted prior manifest, the
eviction pass (lines 99-112) deletes a content entry exactly when the current
manifest has no (well-formed) entry for its normalized key or the current
manifest's fingerprint for that key differs from the prior manifest's; every
other content entry is left in place with its stored value unchanged. -/
theorem evictPass_deletes_iff (res old : Manifest) (c : Cache) (r : String) :
    cMatch (evictPass res old c) r =
      if truthy (lookup res (normKey r)) = false ∨
          lookup res (normKey r) ≠ lookup old (normKey r)
        then none else cMatch c r := by
  rw [evictPass_cMatch]
  by_cases h : shouldEvict res old (normKey r) = true
  · rw [if_pos h, if_pos ((shouldEvict_iff res old (normKey r)).mp h)]
  · rw [if_neg h, if_neg (fun hc => h ((shouldEvict_iff res old (normKey r)).mpr hc))]

/-! ## addAll lemmas -/

theorem addAll_cMatch_preserved (net : String → Option Response) (ks : List String)
    (c c' : Cache) (r : String)
    (h : addAll net c ks = some c')
    (hk : ∀ k, memb k ks = true → addAllKey k ≠ r) :
    cMatch c' r = cMatch c r := by
  induction ks generalizing c with
  | nil =>
      simp only [addAll, Option.some.injEq] at h
      subst h; rfl
  | cons k ks ih =>
      simp only [addAll] at h
      cases hn : net k with
      | none => simp [hn] at h
      | some resp =>
          simp only [hn] at h
          by_cases ho : resp.ok = true
          · rw [if_pos ho] at h
            have hne : addAllKey k ≠ r := hk k (by simp [memb])
            have hrest := ih (cPut c (addAllKey k) resp) h
              (fun k' hk' => hk k' (by simp [memb, hk']))
            rw [hrest, cMatch_cPut, if_neg (fun he => hne he.symm)]
          · rw [if_neg ho] at h; simp at h

theorem addAll_hasKey_mono (net : String → Option Response) (ks : List String)
    (c c' : Cache) (r : String)
    (h : addAll net c ks = some c') (hr : hasKey c r = true) :
    hasKey c' r = true := by
  induction ks generalizing c with
  | nil =>
      simp only [addAll, Option.some.injEq] at h
      subst h; exact hr
  | cons k ks ih =>
      simp only [addAll] at h
      cases hn : net k with
      | none => simp [hn] at h
      | some resp =>
          simp only [hn] at h
          by_cases ho : resp.ok = true
          · rw [if_pos ho] at h
            exact ih _ h (by rw [hasKey_cPut, hr]; simp)
          · rw [if_neg ho] at h; simp at h

theorem addAll_adds (net : String → Option Response) (ks : List String)
    (c c' : Cache) (k0 : String)
    (h : addAll net c ks = some c') (hm : memb k0 ks = true) :
    hasKey c' (addAllKey k0) = true := by
  induction ks generalizing c with
  | nil => simp [memb] at hm
  | cons k ks ih =>
      simp only [addAll] at h
      cases hn : net k with
      | none => simp [hn] at h
      | some resp =>
          simp only [hn] at h
          by_cases ho : resp.ok = true
          · rw [if_pos ho] at h
            by_cases hkk : k = k0
            · subst hkk
              exact addAll_hasKey_mono net ks _ _ _ h (by rw [hasKey_cPut]; simp)
            · have hm' : memb k0 ks = true := by
                simp only [memb] at hm
                rw [show (k == k0) = false from by simp [hkk]] at hm
                simpa using hm
              exact ih _ h hm'
          · rw [if_neg ho] at h; simp at h

theorem addAll_hasKey_src (net : String → Option Response) (ks : List String)
    (c c' : Cache) (r : String)
    (h : addAll net c ks = some c') (hr : hasKey c' r = true) :
    hasKey c r = true ∨ ∃ k, memb k ks = true ∧ addAllKey k = r := by
  induction ks generalizing c with
  | nil =>
      simp only [addAll, Option.some.injEq] at h
      subst h; exact Or.inl hr
  | cons k ks ih =>
      simp only [addAll] at h
      cases hn : net k with
      | none => simp [hn] at h
      | some resp =>
          simp only [hn] at h
          by_cases ho : resp.ok = true
          · rw [if_pos ho] at h
            rcases ih _ h with hput | ⟨k', hk', he⟩
            · rw [hasKey_cPut] at hput
              rcases Bool.or_eq_true_iff.mp hput with hbe | hc
              · exact Or.inr ⟨k, by simp [memb], (beq_iff_eq.mp hbe).symm⟩
              · exact Or.inl hc
            · exact Or.inr ⟨k', by simp [memb, hk'], he⟩
          · rw [if_neg ho] at h; simp at h

theorem memb_map_iff (f : String → String) (ks : List String) (r : String) :
    memb r (ks.map f) = true ↔ ∃ k, memb k ks = true ∧ f k = r := by
  induction ks with
  | nil => simp [memb]
  | cons k ks ih =>
      constructor
      · intro hm
        simp only [List.map, memb, Bool.or_eq_true, beq_iff_eq] at hm
        rcases hm with hf | hm
        · exact ⟨k, by simp [memb], hf⟩
        · rcases ih.mp hm with ⟨k', hk', hf⟩
          exact ⟨k', by simp [memb, hk'], hf⟩
      · rintro ⟨k', hk', hf⟩
        simp only [memb, Bool.or_eq_true, beq_iff_eq] at hk'
        simp only [List.map, memb, Bool.or_eq_true, beq_iff_eq]
        rcases hk' with he | hm
        · exact Or.inl (by rw [he]; exact hf)
        · exact Or.inr (ih.mpr ⟨k', hm, hf⟩)

/-! ## Idempotence helpers -/

theorem evictLoop_id (res old : Manifest) (ks : List String) (c : Cache)
    (h : ∀ r, memb r ks = true → shouldEvict res old (normKey r) = false) :
    evictLoop res old ks c = c := by
  induction ks generalizing c with
  | nil => rfl
  | cons k ks ih =>
      have hk : shouldEvict res old (normKey k) = false := h k (by simp [memb])
      simp only [evictLoop, hk]
      simpa using ih c (fun r hr => h r (by simp [memb, hr]))

/-- C2: with no persisted prior manifest record, activation deletes and
recreates the content namespace, copies every staged entry into it, persists
the current manifest as the new record, discards staging and signals the host
to claim clients; after a successful install from an empty staging namespace
the content key set equals exactly the stored keys of the Core List. -/
theorem freshInstall_completeness (res : Manifest) (core : List String)
    (net : String → Option Response) (s s1 : SW)
    (hrec : s.manifestStore.getD none = none)
    (htemp : s.temp.getD [] = [])
    (hinst : install core net s = some s1) :
    (activate res s1).1.content.isSome = true
    ∧ (∀ r, hasKey ((activate res s1).1.content.getD []) r = memb r (core.map addAllKey))
    ∧ (activate res s1).1.temp = none
    ∧ (activate res s1).1.manifestStore = some (some res)
    ∧ (activate res s1).2 = true := by
  simp only [install, htemp] at hinst
  cases haa : addAll net [] core with
  | none => rw [haa] at hinst; simp at hinst
  | some t =>
      rw [haa] at hinst
      simp only [Option.some.injEq] at hinst
      subst hinst
      have hact : activate res { s with temp := some t }
          = ({ content := some (copyAll t []), temp := none,
               manifestStore := some (some res) }, true) := by
        unfold activate
        simp [hrec]
      rw [hact]
      refine ⟨rfl, ?_, rfl, rfl, rfl⟩
      intro r
      show hasKey (copyAll t []) r = memb r (core.map addAllKey)
      rw [hasKey_copyAll]
      have hnil : hasKey ([] : Cache) r = false := rfl
      rw [hnil, Bool.or_false]
      by_cases ht : hasKey t r = true
      · rw [ht]
        rcases addAll_hasKey_src net core [] t r haa ht with hfalse | ⟨k, hk, he⟩
        · simp [hasKey] at hfalse
        · exact ((memb_map_iff addAllKey core r).mpr ⟨k, hk, he⟩).symm
      · have ht' : hasKey t r = false := by
          cases hb : hasKey t r
          · rfl
          · exact absurd hb ht
        rw [ht']
        by_cases hmm : memb r (core.map addAllKey) = true
        · rcases (memb_map_iff addAllKey core r).mp hmm with ⟨k, hk, he⟩
          exact absurd (he ▸ addAll_adds net core [] t k haa hk) ht
        · cases hb : memb r (core.map addAllKey)
          · rfl
          · exact absurd hb hmm

/-- C3: running the activation sequence twice in succession with an unchanged
manifest (and no intervening install, so the staging namespace stays
discarded) leaves the content namespace — key set and stored values — after
the second activation identical to its state after the first.  The hypothesis
is spec section 3's invariant that the staged entries (the Core List) are
manifest keys. -/
theorem activate_idempotent (res : Manifest) (s : SW)
    (h : ∀ r, hasKey (s.temp.getD []) r = true → truthy (lookup res (normKey r)) = true) :
    (activate res (activate res s).1).1.content = (activate res s).1.content := by
  have hgen : ∀ c1 : Cache,
      (∀ r, hasKey c1 r = true → truthy (lookup res (normKey r)) = true) →
      (activate res { content := some c1, temp := none,
                      manifestStore := some (some res) }).1.content = some c1 := by
    intro c1 hc1
    have hev : evictPass res res c1 = c1 := by
      unfold evictPass
      apply evictLoop_id
      intro r hr
      exact shouldEvict_self res (normKey r)
        (hc1 r (by rwa [memb_keys_eq_hasKey] at hr))
    show some (copyAll [] (evictPass res res c1)) = some c1
    rw [hev]
    rfl
  cases hrec : s.manifestStore.getD none with
  | none =>
      have hs1 : (activate res s).1
          = { content := some (copyAll (s.temp.getD []) []), temp := none,
              manifestStore := some (some res) } := by
        unfold activate
        rw [hrec]
      rw [hs1]
      exact hgen (copyAll (s.temp.getD []) [])
        (fun r hr => by
          rw [hasKey_copyAll] at hr
          rcases Bool.or_eq_true_iff.mp hr with htk | hnil
          · exact h r htk
          · simp [hasKey] at hnil)
  | some old =>
      have hs1 : (activate res s).1
          = { content := some (copyAll (s.temp.getD [])
                (evictPass res old (s.content.getD []))),
              temp := none, manifestStore := some (some res) } := by
        unfold activate
        rw [hrec]
      rw [hs1]
      refine hgen _ (fun r hr => ?_)
      rw [hasKey_copyAll] at hr
      rcases Bool.or_eq_true_iff.mp hr with htk | hev
      · exact h r htk
      · rw [hasKey_eq_isSome, evictPass_cMatch] at hev
        by_cases hse : shouldEvict res old (normKey r) = true
        · rw [if_pos hse] at hev
          simp at hev
        · have hse' : shouldEvict res old (normKey r) = false := by
            cases hb : shouldEvict res old (normKey r)
            · rfl
            · exact absurd hb hse
          exact truthy_of_not_shouldEvict res old (normKey r) hse'

/-- Witness for C2: a concrete fresh install of the one-entry Core List
followed by activation yields exactly that entry in content, persists the
manifest, discards staging and claims. -/
theorem freshInstall_completeness_instance :
    (activate resIdx sInstIdx).1.content.isSome = true
    ∧ hasKey ((activate resIdx sInstIdx).1.content.getD []) kIndex
        = memb kIndex (core0.map addAllKey)
    ∧ (activate resIdx sInstIdx).1.temp = none
    ∧ (activate resIdx sInstIdx).1.manifestStore = some (some resIdx)
    ∧ (activate resIdx sInstIdx).2 = true := by
  have h := freshInstall_completeness resIdx core0 netOk sEmpty sInstIdx rfl rfl
    (by decide)
  exact ⟨h.1, h.2.1 kIndex, h.2.2.1, h.2.2.2.1, h.2.2.2.2⟩

/-- Witness for C3: double activation on a concrete staged state with an
unchanged manifest leaves the content namespace unchanged. -/
theorem activate_idempotent_instance :
    (activate resIdx (activate resIdx sInstIdx).1).1.content
      = (activate resIdx sInstIdx).1.content := by
  refine activate_idempotent resIdx sInstIdx (fun r hr => ?_)
  have hre : kIndex = r := by
    simp only [sInstIdx, hasKey, Option.getD] at hr
    rcases Bool.or_eq_true_iff.mp hr with hb | hb
    · exact beq_iff_eq.mp hb
    · simp [hasKey] at hb
  rw [← hre]
  decide

/-- C4: if any awaited step of the activation sequence fails, the catch block
deletes all three namespaces, so staging, content and the manifest record are
all empty afterwards, no claim is signalled, and the next activation runs the
fresh-install branch; additionally, a fault injected at the very first
awaited step always fails the try block. -/
theorem activateFailure_resets (failAt : Option Nat) (res : Manifest) (s e : SW)
    (h : activateTry failAt res s = TryResult.failed e) :
    runActivate failAt res s
        = ({ content := none, temp := none, manifestStore := none }, false)
    ∧ (∀ res2, (activate res2 (runActivate failAt res s).1).1
        = { content := some [], temp := none, manifestStore := some (some res2) })
    ∧ activateTry (some 0) res s = TryResult.failed s := by
  have hrun : runActivate failAt res s
      = ({ content := none, temp := none, manifestStore := none }, false) := by
    unfold runActivate
    rw [h]
    rfl
  refine ⟨hrun, ?_, rfl⟩
  intro res2
  rw [hrun]
  rfl

/-- Witness for C4: a concrete fault at the first awaited namespace open of a
concrete activation resets all three namespaces. -/
theorem activateFailure_resets_instance :
    runActivate (some 0) resIdx sOldIdx
        = ({ content := none, temp := none, manifestStore := none }, false)
    ∧ (activate resIdx (runActivate (some 0) resIdx sOldIdx).1).1
        = { content := some [], temp := none, manifestStore := some (some resIdx) } := by
  have h := activateFailure_resets (some 0) resIdx sOldIdx sOldIdx rfl
  exact ⟨h.1, h.2.1 resIdx⟩

/-! ## Trace-order helpers -/

theorem takeWhile_append_of_all {α : Type} (p : α → Bool) (L M : List α)
    (h : ∀ o ∈ L, p o = true) :
    (L ++ M).takeWhile p = L ++ M.takeWhile p := by
  induction L with
  | nil => rfl
  | cons a L ih =>
      have ha : p a = true := h a (by simp)
      simp only [List.cons_append, List.takeWhile_cons, ha, if_pos]
      rw [ih (fun o ho => h o (by simp [ho]))]

theorem aop_evict_ne_putRecord (r : String) :
    ((AOp.evict r) != AOp.putRecord) = true := rfl

theorem aop_copy_ne_putRecord (r : String) :
    ((AOp.copy r) != AOp.putRecord) = true := rfl

/-- C7 counterexample: on a concrete activation with a prior manifest, both
the staging-discard and the record-persist occur, but the record persist does
NOT precede the staging discard — the prefix of the trace before the
staging-discard contains no record-persist operation. -/
theorem persist_order_counterexample :
    AOp.putRecord ∈ activateOps resIdx sOldIdx
    ∧ AOp.deleteTempNs ∈ activateOps resIdx sOldIdx
    ∧ AOp.putRecord ∉
        (activateOps resIdx sOldIdx).takeWhile (fun o => o != AOp.deleteTempNs) := by
  decide

/-- C7 (amended): with a prior manifest, after the eviction pass every staging
entry is copied into content overwriting any surviving entry with the same
key; the current manifest is persisted as the new record and the staging
namespace is discarded — with the staging discard occurring before the record
persist in the awaited-operation order (not after, as claimed). -/
theorem overlay_persist_order (res old : Manifest) (s : SW)
    (hrec : s.manifestStore.getD none = some old) :
    (∀ r, cMatch ((activate res s).1.content.getD []) r =
        match cMatch (s.temp.getD []) r with
        | some v => some v
        | none => cMatch (evictPass res old (s.content.getD [])) r)
    ∧ (activate res s).1.manifestStore = some (some res)
    ∧ (activate res s).1.temp = none
    ∧ AOp.deleteTempNs ∈
        (activateOps res s).takeWhile (fun o => o != AOp.putRecord) := by
  have hact : (activate res s).1
      = { content := some (copyAll (s.temp.getD [])
            (evictPass res old (s.content.getD []))),
          temp := none, manifestStore := some (some res) } := by
    unfold activate
    rw [hrec]
  refine ⟨?_, by rw [hact], by rw [hact], ?_⟩
  · intro r
    rw [hact]
    exact copyAll_cMatch _ _ r
  · unfold activateOps
    rw [hrec]
    have hall : ∀ o ∈ ([AOp.openContent, AOp.openTemp, AOp.openManifest, AOp.readRecord]
          ++ ((keys (s.content.getD [])).filter
              (fun r => shouldEvict res old (normKey r))).map AOp.evict
          ++ (keys (s.temp.getD [])).map AOp.copy), (o != AOp.putRecord) = true := by
      intro o ho
      rcases List.mem_append.mp ho with ho | ho
      · rcases List.mem_append.mp ho with ho | ho
        · simp only [List.mem_cons, List.not_mem_nil, or_false] at ho
          rcases ho with rfl | rfl | rfl | rfl <;> rfl
        · rcases List.mem_map.mp ho with ⟨r, _, rfl⟩
          exact aop_evict_ne_putRecord r
      · rcases List.mem_map.mp ho with ⟨r, _, rfl⟩
        exact aop_copy_ne_putRecord r
    rw [takeWhile_append_of_all _ _ _ hall]
    exact List.mem_append_right _ (by decide)

/-- Witness for C7 (amended). -/
theorem overlay_persist_order_instance :
    (cMatch ((activate resIdx sOldIdx).1.content.getD []) kIndex
        = match cMatch (sOldIdx.temp.getD []) kIndex with
          | some v => some v
          | none => cMatch (evictPass resIdx resIdx (sOldIdx.content.getD [])) kIndex)
    ∧ (activate resIdx sOldIdx).1.manifestStore = some (some resIdx)
    ∧ (activate resIdx sOldIdx).1.temp = none
    ∧ AOp.deleteTempNs ∈
        (activateOps resIdx sOldIdx).takeWhile (fun o => o != AOp.putRecord) := by
  have h := overlay_persist_order resIdx resIdx sOldIdx rfl
  exact ⟨h.1 kIndex, h.2.1, h.2.2.1, h.2.2.2⟩

/-! ## Fetch-handler characterizations -/

theorem handleFetch_get (origin : String) (res : Manifest)
    (net : String → Option Response) (c : Cache) (url : String)
    (hres : truthy (lookup res (normalizeKey origin url)) = true) :
    handleFetch origin res net c getMethod url =
      if normalizeKey origin url == rootKey then
        onlineFirst net c url (cacheKey origin url)
      else
        match cMatch c (cacheKey origin url) with
        | some r => FetchOutcome.served r c false
        | none =>
            match net url with
            | some resp =>
                FetchOutcome.served resp
                  (if resp.ok then cPut c (cacheKey origin url) resp else c) true
            | none => FetchOutcome.netFail c := by
  simp only [handleFetch, bne_self_eq_false, Bool.false_eq_true, if_false, hres,
    Bool.not_true]

/-- C5: an intercepted request for a non-root manifest key is served
cache-first with opportunistic refill: a cached entry for the request is
returned with no network fetch; on a miss the network is consulted, the
response is stored if and only if it is ok, and the network response (or its
failure) is returned to the caller either way. -/
theorem cacheFirst_policy (origin : String) (res : Manifest)
    (net : String → Option Response) (c : Cache) (url : String)
    (hres : truthy (lookup res (normalizeKey origin url)) = true)
    (hroot : normalizeKey origin url ≠ rootKey) :
    (∀ r, cMatch c (cacheKey origin url) = some r →
        handleFetch origin res net c getMethod url = FetchOutcome.served r c false)
    ∧ (cMatch c (cacheKey origin url) = none →
        (∀ resp, net url = some resp →
            handleFetch origin res net c getMethod url =
              FetchOutcome.served resp
                (if resp.ok then cPut c (cacheKey origin url) resp else c) true)
        ∧ (net url = none →
            handleFetch origin res net c getMethod url = FetchOutcome.netFail c)) := by
  have h0 := handleFetch_get origin res net c url hres
  have hk : (normalizeKey origin url == rootKey) = false := by
    cases hb : normalizeKey origin url == rootKey
    · rfl
    · exact absurd (beq_iff_eq.mp hb) hroot
  rw [hk] at h0
  simp only [Bool.false_eq_true, if_false] at h0
  refine ⟨?_, ?_⟩
  · intro r hr
    rw [h0, hr]
  · intro hmiss
    refine ⟨?_, ?_⟩
    · intro resp hnet
      rw [h0, hmiss, hnet]
    · intro hnet
      rw [h0, hmiss, hnet]

/-- Witness for C5: a concrete cache hit is served without touching the
network and without modifying the cache. -/
theorem cacheFirst_policy_instance :
    handleFetch origin0 resX netDown [(keyX, respOld)] getMethod urlX
      = FetchOutcome.served respOld [(keyX, respOld)] false := by
  have h := cacheFirst_policy origin0 resX netDown [(keyX, respOld)] urlX
    (by decide) (by decide)
  exact h.1 respOld (by decide)

/-- C6 counterexample: a root-normalized request carrying a `?v=` query token
is intercepted as the root key, yet on network failure the code consults the
cache under the queried URL, not the root entry, so a present root entry is
NOT returned: the error propagates instead. -/
theorem rootFallback_counterexample :
    normalizeKey origin0 urlRootV = rootKey
    ∧ cMatch [(emptyStr, respOld)] (cacheKey origin0 urlRootSlash) = some respOld
    ∧ netDown urlRootV = none
    ∧ handleFetch origin0 resRoot netDown [(emptyStr, respOld)] getMethod urlRootV
        = FetchOutcome.netFail [(emptyStr, respOld)] := by
  decide

/-- C6 (amended): a request whose normalized path is the root key is served
online-first: on network success the response is stored under the request's
cache key and returned; on network failure the content entry stored under the
request's own cache key — the root entry exactly when the request URL, minus
any fragment, is the bare origin or the origin followed by a slash — is
returned unchanged when present, and otherwise the failure propagates to the
caller. -/
theorem onlineFirst_policy (origin : String) (res : Manifest)
    (net : String → Option Response) (c : Cache) (url : String)
    (hkey : normalizeKey origin url = rootKey)
    (hres : truthy (lookup res rootKey) = true) :
    (∀ resp, net url = some resp →
        handleFetch origin res net c getMethod url
          = FetchOutcome.served resp (cPut c (cacheKey origin url) resp) true)
    ∧ (net url = none →
        (∀ r, cMatch c (cacheKey origin url) = some r →
            handleFetch origin res net c getMethod url = FetchOutcome.served r c true)
        ∧ (cMatch c (cacheKey origin url) = none →
            handleFetch origin res net c getMethod url
              = FetchOutcome.netFail c)) := by
  have h0 := handleFetch_get origin res net c url (by rw [hkey]; exact hres)
  rw [hkey] at h0
  simp only [beq_self_eq_true, if_true] at h0
  refine ⟨?_, ?_⟩
  · intro resp hnet
    rw [h0]
    unfold onlineFirst
    rw [hnet]
  · intro hnet
    refine ⟨?_, ?_⟩
    · intro r hr
      rw [h0]
      unfold onlineFirst
      rw [hnet, hr]
    · intro hmiss
      rw [h0]
      unfold onlineFirst
      rw [hnet, hmiss]

/-- Witness for C6 (amended): with a cached root entry and the network down,
a canonical root request returns the cached entry unchanged. -/
theorem onlineFirst_policy_instance :
    handleFetch origin0 resRoot netDown [(emptyStr, respOld)] getMethod urlRootSlash
      = FetchOutcome.served respOld [(emptyStr, respOld)] true := by
  have h := onlineFirst_policy origin0 resRoot netDown [(emptyStr, respOld)] urlRootSlash
    (by decide) (by decide)
  exact (h.2 rfl).1 respOld (by decide)

/-- C8: a request whose method is not GET, or whose normalized path has no
(well-formed) entry in the current manifest, is not intercepted: the handler
returns without responding and the content namespace is untouched. -/
theorem passThrough_policy (origin : String) (res : Manifest)
    (net : String → Option Response) (c : Cache) (method url : String)
    (h : method ≠ getMethod ∨ truthy (lookup res (normalizeKey origin url)) = false) :
    handleFetch origin res net c method url = FetchOutcome.pass
    ∧ (handleFetch origin res net c method url).contentAfter c = c := by
  have hp : handleFetch origin res net c method url = FetchOutcome.pass := by
    rcases h with hm | hl
    · simp [handleFetch, bne_iff_ne.mpr hm]
    · by_cases hm : method = getMethod
      · subst hm
        simp [handleFetch, hl]
      · simp [handleFetch, bne_iff_ne.mpr hm]
  exact ⟨hp, by rw [hp]; rfl⟩

/-- Witness for C8: a GET for a path outside the manifest passes through with
the cache unchanged. -/
theorem passThrough_policy_instance :
    handleFetch origin0 resX netOk [] getMethod urlUnknown = FetchOutcome.pass
    ∧ (handleFetch origin0 resX netOk [] getMethod urlUnknown).contentAfter [] = [] :=
  passThrough_policy origin0 resX netOk [] getMethod urlUnknown (Or.inr (by decide))

/-- C10: a resolved root-key network response is stored into the content
namespace and returned with no status check — a resolved non-ok response
overwrites the stored entry for the request's cache key — whereas on the
non-root cache-first path the same non-ok response is returned but not
stored. -/
theorem rootStore_ignores_status (origin : String) (res : Manifest)
    (net : String → Option Response) (c : Cache) (url url2 : String) (resp : Response)
    (hok : resp.ok = false)
    (h1 : normalizeKey origin url = rootKey)
    (h2 : truthy (lookup res rootKey) = true)
    (hnet : net url = some resp)
    (h1' : normalizeKey origin url2 ≠ rootKey)
    (h2' : truthy (lookup res (normalizeKey origin url2)) = true)
    (hnet' : net url2 = some resp)
    (hmiss : cMatch c (cacheKey origin url2) = none) :
    handleFetch origin res net c getMethod url
        = FetchOutcome.served resp (cPut c (cacheKey origin url) resp) true
    ∧ cMatch ((handleFetch origin res net c getMethod url).contentAfter c)
        (cacheKey origin url) = some resp
    ∧ handleFetch origin res net c getMethod url2 = FetchOutcome.served resp c true := by
  have h0 := handleFetch_get origin res net c url (by rw [h1]; exact h2)
  rw [h1] at h0
  simp only [beq_self_eq_true, if_true] at h0
  have ha : handleFetch origin res net c getMethod url
      = FetchOutcome.served resp (cPut c (cacheKey origin url) resp) true := by
    rw [h0]
    unfold onlineFirst
    rw [hnet]
  have h0' := handleFetch_get origin res net c url2 h2'
  have hk : (normalizeKey origin url2 == rootKey) = false := by
    cases hb : normalizeKey origin url2 == rootKey
    · rfl
    · exact absurd (beq_iff_eq.mp hb) h1'
  rw [hk] at h0'
  simp only [Bool.false_eq_true, if_false] at h0'
  refine ⟨ha, ?_, ?_⟩
  · rw [ha]
    show cMatch (cPut c (cacheKey origin url) resp) (cacheKey origin url) = some resp
    rw [cMatch_cPut, if_pos rfl]
  · rw [h0', hmiss, hnet']
    simp [hok]

/-- Witness for C10: a non-ok root response overwrites the cached root entry,
while the same non-ok response on a non-root miss is not stored. -/
theorem rootStore_ignores_status_instance :
    handleFetch origin0 resRoot netBad [(emptyStr, respOld)] getMethod urlRootSlash
        = FetchOutcome.served respBad
            (cPut [(emptyStr, respOld)] (cacheKey origin0 urlRootSlash) respBad) true
    ∧ cMatch ((handleFetch origin0 resRoot netBad [(emptyStr, respOld)]
          getMethod urlRootSlash).contentAfter [(emptyStr, respOld)])
        (cacheKey origin0 urlRootSlash) = some respBad
    ∧ handleFetch origin0 resRoot netBad [(emptyStr, respOld)] getMethod urlX
        = FetchOutcome.served respBad [(emptyStr, respOld)] true := by
  exact rootStore_ignores_status origin0 resRoot netBad [(emptyStr, respOld)]
    urlRootSlash urlX respBad (by decide) (by decide) (by decide) (by decide)
    (by decide) (by decide) (by decide) (by decide)

/-! ## Offline hydrator -/

theorem memb_filter (p : String → Bool) (ks : List String) (r : String) :
    memb r (ks.filter p) = true ↔ memb r ks = true ∧ p r = true := by
  induction ks with
  | nil => simp [memb]
  | cons k ks ih =>
      by_cases hp : p k = true
      · rw [List.filter_cons_of_pos hp]
        constructor
        · intro hm
          simp only [memb, Bool.or_eq_true, beq_iff_eq] at hm
          rcases hm with he | hm
          · exact ⟨by simp [memb, he], by rw [← he]; exact hp⟩
          · rcases ih.mp hm with ⟨h1, h2⟩
            exact ⟨by simp [memb, h1], h2⟩
        · rintro ⟨hm, hr⟩
          simp only [memb, Bool.or_eq_true, beq_iff_eq] at hm ⊢
          rcases hm with he | hm
          · exact Or.inl he
          · exact Or.inr (ih.mpr ⟨hm, hr⟩)
      · have hp' : p k = false := by
          cases hb : p k
          · rfl
          · exact absurd hb hp
        rw [List.filter_cons_of_neg (by simp [hp'])]
        constructor
        · intro hm
          rcases ih.mp hm with ⟨h1, h2⟩
          exact ⟨by simp [memb, h1], h2⟩
        · rintro ⟨hm, hr⟩
          simp only [memb, Bool.or_eq_true, beq_iff_eq] at hm
          rcases hm with he | hm
          · exact absurd (by rw [he]; exact hr) hp
          · exact ih.mpr ⟨hm, hr⟩

/-- C9: the offline hydrator computes exactly the manifest keys missing from
the content namespace under normalization and issues one bulk
fetch-and-store for exactly that set; it is a no-op when the set is empty; it
never modifies entries already present (even stale ones); and when the bulk
store succeeds, every manifest key is present in the content namespace up to
normalization (superset).  The hypothesis excludes the degenerate
empty-string manifest key, which cannot arise as a resource path. -/
theorem downloadOffline_spec (res : Manifest) (net : String → Option Response)
    (c : Cache)
    (hne : memb emptyStr (res.map (fun p => p.1)) = false) :
    (∀ k, memb k (missingKeys res c) = true ↔
        (memb k (res.map (fun p => p.1)) = true
          ∧ memb k ((keys c).map normKey) = false))
    ∧ (missingKeys res c = [] → downloadOffline res net c = some c)
    ∧ (∀ c', downloadOffline res net c = some c' →
        (∀ r v, cMatch c r = some v → cMatch c' r = some v)
        ∧ (∀ k, memb k (res.map (fun p => p.1)) = true →
            ∃ r, hasKey c' r = true ∧ normKey r = k)) := by
  have hpart1 : ∀ k, memb k (missingKeys res c) = true ↔
      (memb k (res.map (fun p => p.1)) = true
        ∧ memb k ((keys c).map normKey) = false) := by
    intro k
    unfold missingKeys
    rw [memb_filter]
    constructor
    · rintro ⟨h1, h2⟩
      refine ⟨h1, ?_⟩
      cases hb : memb k ((keys c).map normKey)
      · rfl
      · rw [hb] at h2
        simp at h2
    · rintro ⟨h1, h2⟩
      exact ⟨h1, by rw [h2]; rfl⟩
  have hkne : ∀ k, memb k (res.map (fun p => p.1)) = true → k ≠ emptyStr := by
    intro k hk h0
    subst h0
    rw [hk] at hne
    simp at hne
  have hnak : ∀ k, k ≠ emptyStr → normKey (addAllKey k) = k := by
    intro k hk
    by_cases h0 : k = rootKey
    · rw [h0]
      rfl
    · have h1 : addAllKey k = k := by simp [addAllKey, h0]
      rw [h1]
      simp [normKey, hk]
  refine ⟨hpart1, ?_, ?_⟩
  · intro hm
    unfold downloadOffline
    rw [hm]
    rfl
  · intro c' hdl
    unfold downloadOffline at hdl
    constructor
    · intro r v hv
      have hkr : ∀ k, memb k (missingKeys res c) = true → addAllKey k ≠ r := by
        intro k hk he
        have h1 := (hpart1 k).mp hk
        have hk0 : k ≠ emptyStr := hkne k h1.1
        have hmr : memb r (keys c) = true := by
          rw [memb_keys_eq_hasKey, hasKey_eq_isSome, hv]
          rfl
        have hnorm : memb (normKey r) ((keys c).map normKey) = true :=
          (memb_map_iff normKey (keys c) (normKey r)).mpr ⟨r, hmr, rfl⟩
        have heq : normKey r = k := by
          by_cases hr0 : k = rootKey
          · rw [hr0] at he ⊢
            have hre : r = emptyStr := by
              rw [← he]
              rfl
            rw [hre]
            rfl
          · have h2 : addAllKey k = k := by simp [addAllKey, hr0]
            rw [h2] at he
            rw [← he]
            simp [normKey, hk0]
        rw [heq, h1.2] at hnorm
        simp at hnorm
      rw [addAll_cMatch_preserved net (missingKeys res c) c c' r hdl hkr]
      exact hv
    · intro k hk
      have hk0 : k ≠ emptyStr := hkne k hk
      by_cases hmiss : memb k (missingKeys res c) = true
      · exact ⟨addAllKey k, addAll_adds net (missingKeys res c) c c' k hdl hmiss,
          hnak k hk0⟩
      · have hpres : memb k ((keys c).map normKey) = true := by
          cases hb : memb k ((keys c).map normKey)
          · exact absurd ((hpart1 k).mpr ⟨hk, hb⟩) hmiss
          · rfl
        rcases (memb_map_iff normKey (keys c) k).mp hpres with ⟨r, hr, hnr⟩
        refine ⟨r, ?_, hnr⟩
        exact addAll_hasKey_mono net (missingKeys res c) c c' r hdl
          (by rwa [← memb_keys_eq_hasKey])

/-- Witness for C9: on a concrete state the hydrator's missing set is
characterized, a fully hydrated cache is a no-op, and an existing (stale)
entry survives hydration unchanged. -/
theorem downloadOffline_spec_instance :
    (memb keyX (missingKeys resX cHyd) = true ↔
        (memb keyX (resX.map (fun p => p.1)) = true
          ∧ memb keyX ((keys cHyd).map normKey) = false))
    ∧ downloadOffline resX netOk cFull = some cFull
    ∧ cMatch cHyd' kIndex = some respOld := by
  have h := downloadOffline_spec resX netOk cHyd (by decide)
  have h2 := downloadOffline_spec resX netOk cFull (by decide)
  refine ⟨h.1 keyX, h2.2.1 (by decide), ?_⟩
  exact (h.2.2 cHyd' (by decide)).1 kIndex respOld (by decide)

end FlutterSW
